import Mathlib

/-!
Verification of `deepvariant/vcf_stats.py`: per-variant classification
statistics and aggregate summary statistics over VCF-like variant records.

The embedding follows the Python source closely.  The nucleus utility
functions (`variant_utils.is_variant_call`, `is_biallelic`, `is_snp`,
`is_insertion`, `is_deletion`, `is_transition`) are external collaborators of
this module; they are passed in as a bundle of predicates (`VariantUtils`),
exactly as the source calls out to them.  Machine floats are modelled as
exact rationals; `np.std` returns the square root of the population
variance, so the summary record carries the variance (`depth_var`,
`gq_var`) from which the emitted standard deviation is determined as its
nonnegative square root.
-/

namespace VcfStats

/-- A single genotype call attached to a variant record, with its
format-field values: read depth (DP), genotype quality (GQ) and the
genotype allele indices (GT). -/
structure VariantCall where
  dp : Int
  gq : Int
  gt : List Int
  deriving DecidableEq, Repr

/-- A variant record as consumed read-only by `vcf_stats.py`: reference
contig name, 0-based start, reference bases, alternate alleles, and the
attached genotype calls. -/
structure VariantRecord where
  reference_name : String
  start : Int
  reference_bases : String
  alternate_bases : List String
  calls : List VariantCall
  deriving DecidableEq, Repr

/-- The external nucleus `variant_utils` collaborator functions used by
`vcf_stats.py`, bundled as predicates.  The module under verification only
calls them; their internals are outside this module. -/
structure VariantUtils where
  is_variant_call : VariantRecord → Bool
  is_biallelic : VariantRecord → Bool
  is_snp : VariantRecord → Bool
  is_insertion : String → String → Bool
  is_deletion : String → String → Bool
  is_transition : String → String → Bool

/-- The nine variant type labels of `vcf_stats.py`. -/
inductive VariantType where
  | BIALLELIC_SNP
  | BIALLELIC_INSERTION
  | BIALLELIC_DELETION
  | BIALLELIC_MNP
  | MULTIALLELIC_SNP
  | MULTIALLELIC_INSERTION
  | MULTIALLELIC_DELETION
  | MULTIALLELIC_COMPLEX
  | REFCALL
  deriving DecidableEq, Repr

/-- `_get_variant_type(variant)`: classification of a record into one of the
nine categories, with the source's precedence SNP, insertion, deletion,
otherwise MNP (biallelic) / Complex (multiallelic). -/
def get_variant_type (u : VariantUtils) (v : VariantRecord) : VariantType :=
  if u.is_variant_call v then
    let biallelic := u.is_biallelic v
    let snp := u.is_snp v
    let insertion := v.alternate_bases.all (fun alt => u.is_insertion v.reference_bases alt)
    let deletion := v.alternate_bases.all (fun alt => u.is_deletion v.reference_bases alt)
    if biallelic then
      if snp then .BIALLELIC_SNP
      else if insertion then .BIALLELIC_INSERTION
      else if deletion then .BIALLELIC_DELETION
      else .BIALLELIC_MNP
    else
      if snp then .MULTIALLELIC_SNP
      else if insertion then .MULTIALLELIC_INSERTION
      else if deletion then .MULTIALLELIC_DELETION
      else .MULTIALLELIC_COMPLEX
  else .REFCALL

/-- `_tstv(variant, vtype)`: the pair (is_transition, is_transversion).
For a biallelic SNP the first component is the external transition test on
the reference bases and the first alternate allele, and the second is its
negation; otherwise both are false. -/
def tstv (u : VariantUtils) (v : VariantRecord) (vtype : VariantType) : Bool × Bool :=
  if vtype = .BIALLELIC_SNP then
    let t := u.is_transition v.reference_bases (v.alternate_bases.headD "")
    (t, !t)
  else
    (false, false)

/-- `variant_utils.only_call(variant)`: the record's single attached call.
Fails (here: `none`) when the record does not have exactly one call. -/
def only_call (v : VariantRecord) : Option VariantCall :=
  match v.calls with
  | [c] => some c
  | _ => none

/-- The external VCF reader collaborator: supplies the per-allele VAF
format values for a call. -/
structure VcfReader where
  vaf : VariantCall → List Rat

/-- `_get_vaf(variant, vcf_reader)`: the per-allele VAF values of the
record's single call, summed. -/
def get_vaf (v : VariantRecord) (vcf_reader : VcfReader) : Option Rat :=
  (only_call v).map (fun c => (vcf_reader.vaf c).sum)

/-- Python's `str(list_of_ints)` rendering, e.g. `[0, 1]`. -/
def formatIntList (l : List Int) : String :=
  "[" ++ String.intercalate ", " (l.map toString) ++ "]"

/-- Python's `sorted` on a list of integers (ascending). -/
def sortedInts (l : List Int) : List Int :=
  l.mergeSort (fun a b => decide (a ≤ b))

/-- The per-variant statistics record produced by the builder, one field
per column of `_VARIANT_STATS_COLUMNS`. -/
structure VariantStats where
  reference_name : String
  position : Int
  reference_bases : String
  alternate_bases : List String
  variant_type : VariantType
  is_variant : Bool
  is_transition : Bool
  is_transversion : Bool
  depth : Int
  genotype_quality : Int
  genotype : String
  vaf : Option Rat
  deriving DecidableEq, Repr

/-- `get_variant_stats(variant, vcf_reader)`: builds the `VariantStats`
for one record.  `none` models the exception propagated when the record
does not have exactly one call (`only_call` fails). -/
def get_variant_stats (u : VariantUtils) (v : VariantRecord)
    (vcf_reader : Option VcfReader) : Option VariantStats :=
  match only_call v with
  | none => none
  | some c =>
    let vtype := get_variant_type u v
    let ts := tstv u v vtype
    some {
      reference_name := v.reference_name
      position := v.start + 1
      reference_bases := v.reference_bases
      alternate_bases := v.alternate_bases
      variant_type := vtype
      is_variant := u.is_variant_call v
      is_transition := ts.1
      is_transversion := ts.2
      depth := c.dp
      genotype_quality := c.gq
      genotype := formatIntList (sortedInts c.gt)
      vaf := vcf_reader.map (fun r => (r.vaf c).sum)
    }

/-- `single_variant_stats(variants, vcf_reader)`: the stats of every
record, in order; `none` when any record fails. -/
def single_variant_stats (u : VariantUtils) (variants : List VariantRecord)
    (vcf_reader : Option VcfReader) : Option (List VariantStats) :=
  variants.mapM (fun v => get_variant_stats u v vcf_reader)

/-- Arithmetic mean of a list of rationals (`np.mean`). -/
def ratMean (l : List Rat) : Rat := l.sum / l.length

/-- Population variance of a list of rationals: the mean of the squared
deviations from the mean.  `np.std` emits its nonnegative square root. -/
def ratVar (l : List Rat) : Rat :=
  (l.map (fun x => (x - ratMean l) ^ 2)).sum / l.length

/-- The summary statistics record (`VCFSummaryStats`).  `depth_var` and
`gq_var` carry the population variances whose nonnegative square roots are
the emitted `depth_stdev` / `gq_stdev` floats. -/
structure VCFSummaryStats where
  record_count : Nat
  variant_count : Nat
  snv_count : Nat
  insertion_count : Nat
  deletion_count : Nat
  mnp_count : Nat
  complex_count : Nat
  depth_mean : Rat
  depth_var : Rat
  gq_mean : Rat
  gq_var : Rat
  transition_count : Nat
  transversion_count : Nat
  deriving DecidableEq, Repr

/-- `summary_stats(single_stats)`: summary counts, means and variances.
On the empty list the Python code fails with a `KeyError` (the transposed
dictionary has no columns); this is modelled as `none`. -/
def summary_stats (single_stats : List VariantStats) : Option VCFSummaryStats :=
  match single_stats with
  | [] => none
  | _ =>
    some {
      record_count := single_stats.length
      variant_count := single_stats.countP (fun s => s.is_variant)
      snv_count := single_stats.countP (fun s =>
        decide (s.variant_type = .BIALLELIC_SNP ∨ s.variant_type = .MULTIALLELIC_SNP))
      insertion_count := single_stats.countP (fun s =>
        decide (s.variant_type = .BIALLELIC_INSERTION ∨ s.variant_type = .MULTIALLELIC_INSERTION))
      deletion_count := single_stats.countP (fun s =>
        decide (s.variant_type = .BIALLELIC_DELETION ∨ s.variant_type = .MULTIALLELIC_DELETION))
      mnp_count := single_stats.countP (fun s => decide (s.variant_type = .BIALLELIC_MNP))
      complex_count := single_stats.countP (fun s => decide (s.variant_type = .MULTIALLELIC_COMPLEX))
      depth_mean := ratMean (single_stats.map (fun s => (s.depth : Rat)))
      depth_var := ratVar (single_stats.map (fun s => (s.depth : Rat)))
      gq_mean := ratMean (single_stats.map (fun s => (s.genotype_quality : Rat)))
      gq_var := ratVar (single_stats.map (fun s => (s.genotype_quality : Rat)))
      transition_count := single_stats.countP (fun s => s.is_transition)
      transversion_count := single_stats.countP (fun s => s.is_transversion)
    }

/-- Python's `round(x, 10)`: rounding to 10 decimal places (modelled on
exact rationals). -/
def roundTo10 (x : Rat) : Rat :=
  (⌊x * 10 ^ 10 + 1 / 2⌋ : Rat) / 10 ^ 10

/-- `np.histogram` bin membership over the fixed range [0, 1] with `n`
equal-width bins: bin `i` is `[i/n, (i+1)/n)`, except the last bin which
also contains its right edge; values outside [0, 1] fall in no bin. -/
def inBinB (v : Rat) (i n : Nat) : Bool :=
  decide ((i : Rat) / n ≤ v) &&
    (if i + 1 = n then decide (v ≤ 1) else decide (v < ((i : Rat) + 1) / n))

/-- One emitted histogram entry: rounded bin edges and the count. -/
structure HistBin where
  bin_start : Rat
  bin_end : Rat
  count : Nat
  deriving DecidableEq, Repr

/-- The Vega-formatted histogram of a list of VAF values over `n` fixed
bins spanning [0, 1]: `np.histogram(vafs, bins=n, range=(0, 1))` followed
by rounding the bin edges to 10 decimals. -/
def histBins (vafs : List Rat) (n : Nat) : List HistBin :=
  (List.range n).map (fun (i : Nat) =>
    { bin_start := roundTo10 ((i : Rat) / n)
      bin_end := roundTo10 (((i : Rat) + 1) / n)
      count := vafs.countP (fun v => inBinB v i n) })

/-- Insert a string into a list, before the first element it compares
less-or-equal to (insertion sort step). -/
def insertStr (x : String) : List String → List String
  | [] => [x]
  | y :: ys => if x ≤ y then x :: y :: ys else y :: insertStr x ys

/-- Ascending lexicographic sort of strings: Python's `sorted` on the
genotype keys. -/
def sortStrings : List String → List String
  | [] => []
  | x :: xs => insertStr x (sortStrings xs)

/-- Removal of consecutive duplicates: the distinct keys yielded by
`itertools.groupby` over an already sorted list. -/
def uniqueSorted : List String → List String
  | [] => []
  | [x] => [x]
  | x :: y :: rest => if x == y then uniqueSorted (y :: rest) else x :: uniqueSorted (y :: rest)

/-- The distinct genotype keys, in ascending order: the keys produced by
`itertools.groupby` after sorting by genotype. -/
def genotypeKeys (single_stats : List VariantStats) : List String :=
  uniqueSorted (sortStrings (single_stats.map (fun s => s.genotype)))

/-- `vaf_histograms_by_genotype(single_stats, number_of_bins)`: groups the
records by genotype string and computes, per group, the histogram of the
present (non-`None`) VAF values over `number_of_bins` fixed bins. -/
def vaf_histograms_by_genotype (single_stats : List VariantStats)
    (number_of_bins : Nat) : List (String × List HistBin) :=
  (genotypeKeys single_stats).map (fun g =>
    let group := single_stats.filter (fun s => s.genotype == g)
    let vafs := group.filterMap (fun s => s.vaf)
    (g, histBins vafs number_of_bins))

/-! ### Concrete fixtures used to instantiate the theorems -/

/-- Example collaborator bundle in which the SNP, insertion and deletion
conditions all hold at once (the conditions are not mutually exclusive),
and the transition test is true. -/
def utilsAll : VariantUtils :=
  ⟨fun _ => true, fun v => v.alternate_bases.length == 1, fun _ => true,
   fun _ _ => true, fun _ _ => true, fun _ _ => true⟩

/-- Example collaborator bundle in which the SNP condition fails while the
insertion and the deletion conditions both hold. -/
def utilsIndel : VariantUtils :=
  ⟨fun _ => true, fun v => v.alternate_bases.length == 1, fun _ => false,
   fun _ _ => true, fun _ _ => true, fun _ _ => false⟩

/-- A biallelic record with a single attached call. -/
def recA : VariantRecord := ⟨"chr1", 9, "A", ["G"], [⟨30, 40, [1, 0]⟩]⟩

/-- A VCF reader supplying two per-allele VAF values for every call. -/
def readerA : VcfReader := ⟨fun _ => [1/2, 1/4]⟩

/-- The stats built for `recA` under `utilsAll` without a reader. -/
def statA : VariantStats :=
  ⟨"chr1", 10, "A", ["G"], .BIALLELIC_SNP, true, true, false, 30, 40, "[0, 1]", none⟩

/-- The biallelic SNP record of the spec's concrete scenario: ref "A",
alt ["G"], depth 30, genotype quality 40, genotype [0, 1], vaf 0.5,
transition. -/
def statSnp : VariantStats :=
  ⟨"chr1", 10, "A", ["G"], .BIALLELIC_SNP, true, true, false, 30, 40, "[0, 1]", some (1/2)⟩

/-- The RefCall record of the spec's concrete scenario, with depth 10. -/
def statRef : VariantStats :=
  ⟨"chr1", 20, "T", ["T"], .REFCALL, false, false, false, 10, 35, "[0, 0]", none⟩

/-- The summary of `[statSnp, statRef]`: depths 30 and 10 give mean 20 and
population variance 100 (standard deviation 10); genotype qualities 40 and
35 give mean 75/2 and population variance 25/4. -/
def summScenario : VCFSummaryStats :=
  ⟨2, 1, 1, 0, 0, 0, 0, 20, 100, 75/2, 25/4, 1, 0⟩

/-- The summary of the single-record list `[statA]`. -/
def summA : VCFSummaryStats :=
  ⟨1, 1, 1, 0, 0, 0, 0, 30, 0, 40, 0, 1, 0⟩

/-- A stats record whose vaf is present but larger than 1: its vaf falls
outside the fixed histogram range [0, 1]. -/
def statBad : VariantStats :=
  ⟨"chr1", 30, "C", ["G", "T"], .MULTIALLELIC_SNP, true, false, false, 25, 20, "[1, 2]", some 2⟩

end VcfStats

namespace VcfStats

/-- Concrete evaluation of the builder on the fixture record `recA`. -/
theorem get_variant_stats_recA : get_variant_stats utilsAll recA none = some statA := by
  simp [get_variant_stats, only_call, get_variant_type, tstv, utilsAll, recA,
    statA, sortedInts, formatIntList, List.mergeSort]
  decide

/-- C1: for a called variant, classification follows the strict
first-match-wins precedence SNP, then Insertion, then Deletion, then
MNP (biallelic) / Complex (multiallelic): the SNP category is returned
whenever the SNP condition holds, the Insertion category whenever SNP
fails and every alternate allele is an insertion, the Deletion category
whenever SNP and Insertion fail and every alternate allele is a deletion,
and otherwise Biallelic_MNP or Multiallelic_Complex — even when more than
one of the three conditions holds. -/
theorem classification_precedence (u : VariantUtils) (v : VariantRecord)
    (hcall : u.is_variant_call v = true) :
    (u.is_snp v = true →
      get_variant_type u v =
        (if u.is_biallelic v then VariantType.BIALLELIC_SNP
         else VariantType.MULTIALLELIC_SNP)) ∧
    (u.is_snp v = false →
      (v.alternate_bases.all fun alt => u.is_insertion v.reference_bases alt) = true →
      get_variant_type u v =
        (if u.is_biallelic v then VariantType.BIALLELIC_INSERTION
         else VariantType.MULTIALLELIC_INSERTION)) ∧
    (u.is_snp v = false →
      (v.alternate_bases.all fun alt => u.is_insertion v.reference_bases alt) = false →
      (v.alternate_bases.all fun alt => u.is_deletion v.reference_bases alt) = true →
      get_variant_type u v =
        (if u.is_biallelic v then VariantType.BIALLELIC_DELETION
         else VariantType.MULTIALLELIC_DELETION)) ∧
    (u.is_snp v = false →
      (v.alternate_bases.all fun alt => u.is_insertion v.reference_bases alt) = false →
      (v.alternate_bases.all fun alt => u.is_deletion v.reference_bases alt) = false →
      get_variant_type u v =
        (if u.is_biallelic v then VariantType.BIALLELIC_MNP
         else VariantType.MULTIALLELIC_COMPLEX)) := by
  refine ⟨?_, ?_, ?_, ?_⟩ <;>
    intros <;>
    by_cases hb : u.is_biallelic v <;>
    simp [get_variant_type, hcall, hb, *]

/-- C1 witness: under a collaborator bundle where the SNP, insertion and
deletion conditions all hold at once, the classification of a concrete
biallelic record is Biallelic_SNP — the SNP branch wins. -/
theorem classification_precedence_applied :
    utilsAll.is_variant_call recA = true ∧
    (utilsAll.is_snp recA = true →
      get_variant_type utilsAll recA =
        (if utilsAll.is_biallelic recA then VariantType.BIALLELIC_SNP
         else VariantType.MULTIALLELIC_SNP)) :=
  ⟨rfl, (classification_precedence utilsAll recA rfl).1⟩

/-- C2: for every stats record produced by the builder, the transition and
transversion flags are never both true; they are both false whenever the
variant type is not Biallelic_SNP; and for a Biallelic_SNP exactly one of
the two flags is true. -/
theorem tstv_invariant (u : VariantUtils) (v : VariantRecord)
    (r : Option VcfReader) (s : VariantStats)
    (h : get_variant_stats u v r = some s) :
    ¬(s.is_transition = true ∧ s.is_transversion = true) ∧
    (s.variant_type ≠ VariantType.BIALLELIC_SNP →
      s.is_transition = false ∧ s.is_transversion = false) ∧
    (s.variant_type = VariantType.BIALLELIC_SNP →
      s.is_transversion = (!s.is_transition)) := by
  cases hc : only_call v with
  | none => simp [get_variant_stats, hc] at h
  | some c =>
    simp only [get_variant_stats, hc, Option.some.injEq] at h
    subst h
    by_cases hsnp : get_variant_type u v = VariantType.BIALLELIC_SNP <;>
      simp [tstv, hsnp]

/-- C2 witness: the builder output for a concrete biallelic SNP record has
is_transition true and is_transversion false. -/
theorem tstv_invariant_applied :
    ¬(statA.is_transition = true ∧ statA.is_transversion = true) ∧
    (statA.variant_type ≠ VariantType.BIALLELIC_SNP →
      statA.is_transition = false ∧ statA.is_transversion = false) ∧
    (statA.variant_type = VariantType.BIALLELIC_SNP →
      statA.is_transversion = (!statA.is_transition)) :=
  tstv_invariant utilsAll recA none statA get_variant_stats_recA

/-- C5: summarization of an empty stats sequence fails (the Python code
raises a KeyError; the model returns `none`). -/
theorem summary_stats_empty_fails : summary_stats [] = none := rfl

/-- C4: the vaf field of a built stats record is absent when no
format-field source (VCF reader) is supplied, and when a reader is
supplied it is the sum of the per-allele VAF values retrieved for the
record's single call. -/
theorem vaf_presence (u : VariantUtils) (v : VariantRecord) (r : VcfReader)
    (c : VariantCall) (s t : VariantStats) :
    (get_variant_stats u v none = some s → s.vaf = none) ∧
    (only_call v = some c → get_variant_stats u v (some r) = some t →
      t.vaf = some (r.vaf c).sum) := by
  constructor
  · intro h
    cases hc : only_call v with
    | none => simp [get_variant_stats, hc] at h
    | some d =>
      simp only [get_variant_stats, hc, Option.some.injEq] at h
      subst h
      rfl
  · intro hc h
    simp only [get_variant_stats, hc, Option.some.injEq] at h
    subst h
    rfl

/-- C4 witness: for a concrete record, vaf is `none` without a reader and
the sum 1/2 + 1/4 = 3/4 with one. -/
theorem vaf_presence_applied :
    statA.vaf = none ∧
    ((get_variant_stats utilsAll recA (some readerA)).map
        (fun s => s.vaf) = some (some ((readerA.vaf ⟨30, 40, [1, 0]⟩).sum))) := by
  constructor
  · exact (vaf_presence utilsAll recA readerA ⟨30, 40, [1, 0]⟩ statA statA).1
      get_variant_stats_recA
  · cases ht : get_variant_stats utilsAll recA (some readerA) with
    | none => simp [get_variant_stats, only_call, recA] at ht
    | some t =>
      have := (vaf_presence utilsAll recA readerA ⟨30, 40, [1, 0]⟩ t t).2
        (by simp [only_call, recA]) ht
      simp [this]

/-- C9: the batch build returns, for a successful run, one stats record
per input record, at the same index: no record is dropped, merged or
reordered. -/
theorem single_stats_pointwise (u : VariantUtils) (variants : List VariantRecord)
    (r : Option VcfReader) (out : List VariantStats)
    (h : single_variant_stats u variants r = some out) :
    out.length = variants.length ∧
    ∀ i : Nat, out[i]? = (variants[i]?).bind (fun v => get_variant_stats u v r) := by
  induction variants generalizing out with
  | nil =>
    simp only [single_variant_stats, List.mapM_nil, pure, Option.some.injEq] at h
    subst h
    simp
  | cons v vs ih =>
    rw [single_variant_stats, List.mapM_cons] at h
    cases hv : get_variant_stats u v r with
    | none => rw [hv] at h; simp at h
    | some s =>
      rw [hv] at h
      cases hrest : vs.mapM (fun v => get_variant_stats u v r) with
      | none => rw [hrest] at h; simp at h
      | some rest =>
        rw [hrest] at h
        simp only [Option.bind_eq_bind, Option.some_bind, Option.pure_def, Option.some.injEq] at h
        subst h
        obtain ⟨ih1, ih2⟩ := ih rest (by rw [single_variant_stats]; exact hrest)
        refine ⟨by simp [ih1], ?_⟩
        intro i
        cases i with
        | zero => simp [hv]
        | succ j => simpa using ih2 j

/-- C9 witness: a one-record batch yields a one-record output whose
single entry is the stats of the single input. -/
theorem single_stats_pointwise_applied :
    ([statA] : List VariantStats).length = ([recA] : List VariantRecord).length ∧
    ∀ i : Nat, ([statA] : List VariantStats)[i]? =
      (([recA] : List VariantRecord)[i]?).bind (fun v => get_variant_stats utilsAll v none) :=
  single_stats_pointwise utilsAll [recA] none [statA] (by
    rw [single_variant_stats, List.mapM_cons, get_variant_stats_recA]
    rfl)

/-- Every stats record produced by the builder has the RefCall label
exactly when its is_variant flag is false. -/
theorem builder_refcall_iff (u : VariantUtils) (v : VariantRecord)
    (r : Option VcfReader) (s : VariantStats)
    (h : get_variant_stats u v r = some s) :
    s.variant_type = VariantType.REFCALL ↔ s.is_variant = false := by
  cases hc : only_call v with
  | none => simp [get_variant_stats, hc] at h
  | some c =>
    simp only [get_variant_stats, hc, Option.some.injEq] at h
    subst h
    by_cases hcall : u.is_variant_call v
    · have hne : get_variant_type u v ≠ VariantType.REFCALL := by
        simp only [get_variant_type, hcall, if_true]
        repeat' split
        all_goals simp
      simp [hne, hcall]
    · simp [get_variant_type, hcall]

/-- Splitting the record count of a builder-produced stats list: variants
and RefCalls partition the records, and the five category counters of the
summary partition the variants. -/
theorem countP_variant_split (l : List VariantStats)
    (hwf : ∀ s ∈ l, (s.variant_type = VariantType.REFCALL ↔ s.is_variant = false)) :
    l.countP (fun s => s.is_variant) +
      l.countP (fun s => decide (s.variant_type = VariantType.REFCALL)) = l.length ∧
    l.countP (fun s =>
        decide (s.variant_type = .BIALLELIC_SNP ∨ s.variant_type = .MULTIALLELIC_SNP)) +
      l.countP (fun s =>
        decide (s.variant_type = .BIALLELIC_INSERTION ∨ s.variant_type = .MULTIALLELIC_INSERTION)) +
      l.countP (fun s =>
        decide (s.variant_type = .BIALLELIC_DELETION ∨ s.variant_type = .MULTIALLELIC_DELETION)) +
      l.countP (fun s => decide (s.variant_type = .BIALLELIC_MNP)) +
      l.countP (fun s => decide (s.variant_type = .MULTIALLELIC_COMPLEX)) =
      l.countP (fun s => s.is_variant) := by
  induction l with
  | nil => simp
  | cons a t ih =>
    have ha := hwf a (List.mem_cons_self a t)
    obtain ⟨ih1, ih2⟩ := ih (fun s hs => hwf s (List.mem_cons_of_mem a hs))
    cases hty : a.variant_type <;> cases hva : a.is_variant <;>
      rw [hty, hva] at ha <;>
      simp only [List.countP_cons, hty, hva] <;>
      simp_all <;>
      omega

/-- C3: for a non-empty builder-produced stats sequence, the summary's
record_count is the input length, variant_count plus the number of RefCall
records is record_count, and the five category counts add up to
variant_count. -/
theorem summary_counts (stats : List VariantStats) (out : VCFSummaryStats)
    (hb : ∀ s ∈ stats, ∃ u v r, get_variant_stats u v r = some s)
    (h : summary_stats stats = some out) :
    out.record_count = stats.length ∧
    out.variant_count +
      stats.countP (fun s => decide (s.variant_type = VariantType.REFCALL)) =
      out.record_count ∧
    out.snv_count + out.insertion_count + out.deletion_count + out.mnp_count +
      out.complex_count = out.variant_count := by
  have hwf : ∀ s ∈ stats, (s.variant_type = VariantType.REFCALL ↔ s.is_variant = false) := by
    intro s hs
    obtain ⟨u, v, r, hg⟩ := hb s hs
    exact builder_refcall_iff u v r s hg
  obtain ⟨h1, h2⟩ := countP_variant_split stats hwf
  cases stats with
  | nil => simp [summary_stats] at h
  | cons a t =>
    simp only [summary_stats, Option.some.injEq] at h
    subst h
    exact ⟨rfl, h1, h2⟩

/-- C3 witness: the one-record list `[statA]` produced by the builder has
record_count 1, one variant, no RefCall, and one SNV. -/
theorem summary_counts_applied :
    summA.record_count = [statA].length ∧
    summA.variant_count +
      [statA].countP (fun s => decide (s.variant_type = VariantType.REFCALL)) =
      summA.record_count ∧
    summA.snv_count + summA.insertion_count + summA.deletion_count + summA.mnp_count +
      summA.complex_count = summA.variant_count :=
  summary_counts [statA] summA
    (by
      intro s hs
      rw [List.mem_singleton] at hs
      subst hs
      exact ⟨utilsAll, recA, none, get_variant_stats_recA⟩)
    (by simp [summary_stats, summA, statA, ratMean, ratVar])

/-- C6: depth_mean and gq_mean are the arithmetic means over all records
(RefCalls included), and the emitted standard deviations are the square
roots of the population variances (divide by N, not N-1) carried here as
depth_var / gq_var; in the spec's two-record scenario (depths 30 and 10)
the summary has record_count 2, variant_count 1, snv_count 1,
transition_count 1, depth_mean 20 and depth_var 100 = 10^2, i.e. a
standard deviation of exactly 10. -/
theorem summary_moments (stats : List VariantStats) (out : VCFSummaryStats)
    (h : summary_stats stats = some out) :
    (out.depth_mean = (stats.map (fun s => (s.depth : Rat))).sum / stats.length ∧
     out.depth_var =
       (stats.map (fun s => ((s.depth : Rat) - out.depth_mean) ^ 2)).sum / stats.length ∧
     out.gq_mean = (stats.map (fun s => (s.genotype_quality : Rat))).sum / stats.length ∧
     out.gq_var =
       (stats.map (fun s => ((s.genotype_quality : Rat) - out.gq_mean) ^ 2)).sum / stats.length) ∧
    (summary_stats [statSnp, statRef] = some summScenario ∧
     summScenario.record_count = 2 ∧ summScenario.variant_count = 1 ∧
     summScenario.snv_count = 1 ∧ summScenario.transition_count = 1 ∧
     summScenario.depth_mean = 20 ∧ summScenario.depth_var = 10 ^ 2) := by
  have hscen : summary_stats [statSnp, statRef] = some summScenario := by
    simp [summary_stats, statSnp, statRef, summScenario, ratMean, ratVar]
    norm_num
  refine ⟨?_, hscen, rfl, rfl, rfl, rfl, by norm_num [summScenario], by norm_num [summScenario]⟩
  cases stats with
  | nil => simp [summary_stats] at h
  | cons a t =>
    simp only [summary_stats, Option.some.injEq] at h
    subst h
    refine ⟨?_, ?_, ?_, ?_⟩ <;>
      simp [ratMean, ratVar, List.map_map, Function.comp_def]

/-- C6 witness: the general moment clauses instantiated at the spec's
two-record scenario. -/
theorem summary_moments_applied :
    summScenario.depth_mean =
      (([statSnp, statRef].map (fun s => (s.depth : Rat))).sum /
        (([statSnp, statRef] : List VariantStats).length : Rat)) ∧
    summScenario.depth_var =
      (([statSnp, statRef].map
          (fun s => ((s.depth : Rat) - summScenario.depth_mean) ^ 2)).sum /
        (([statSnp, statRef] : List VariantStats).length : Rat)) :=
  ⟨((summary_moments [statSnp, statRef] summScenario (by
      simp [summary_stats, statSnp, statRef, summScenario, ratMean, ratVar]
      norm_num)).1).1,
   ((summary_moments [statSnp, statRef] summScenario (by
      simp [summary_stats, statSnp, statRef, summScenario, ratMean, ratVar]
      norm_num)).1).2.1⟩

/-- Membership in an insertion-sorted-step list. -/
theorem mem_insertStr {a x : String} {l : List String} :
    a ∈ insertStr x l ↔ a = x ∨ a ∈ l := by
  induction l with
  | nil => simp [insertStr]
  | cons y ys ih =>
    simp only [insertStr]
    split
    · simp
    · simp only [List.mem_cons, ih]
      tauto

/-- Sorting the genotype keys does not change which keys occur. -/
theorem mem_sortStrings {a : String} {l : List String} :
    a ∈ sortStrings l ↔ a ∈ l := by
  induction l with
  | nil => simp [sortStrings]
  | cons x xs ih => simp [sortStrings, mem_insertStr, ih]

/-- Removing consecutive duplicates does not change which keys occur. -/
theorem mem_uniqueSorted {a : String} {l : List String} :
    a ∈ uniqueSorted l ↔ a ∈ l := by
  induction l with
  | nil => simp [uniqueSorted]
  | cons x xs ih =>
    cases xs with
    | nil => simp [uniqueSorted]
    | cons y ys =>
      simp only [uniqueSorted]
      split
      · rename_i hxy
        have hx : x = y := by simpa using hxy
        rw [ih, hx]
        simp
      · simp only [List.mem_cons] at ih ⊢
        rw [ih]

/-- A genotype string is a histogram key exactly when it occurs among the
stats records. -/
theorem mem_genotypeKeys {g : String} {stats : List VariantStats} :
    g ∈ genotypeKeys stats ↔ g ∈ stats.map (fun s => s.genotype) := by
  simp [genotypeKeys, mem_uniqueSorted, mem_sortStrings]

/-- C8: a genotype that occurs in the input but whose group has no present
vaf value is still emitted, mapped to the histogram of the empty value
list over the same fixed bins, in which every count is zero. -/
theorem empty_vaf_group_emitted (stats : List VariantStats) (g : String) (n : Nat)
    (hg : g ∈ stats.map (fun s => s.genotype))
    (hv : (stats.filter (fun s => s.genotype == g)).filterMap (fun s => s.vaf) = []) :
    (g, histBins [] n) ∈ vaf_histograms_by_genotype stats n ∧
    (histBins [] n).length = n ∧
    ∀ b ∈ histBins [] n, b.count = 0 := by
  refine ⟨?_, by simp [histBins], ?_⟩
  · rw [vaf_histograms_by_genotype]
    refine List.mem_map.mpr ⟨g, mem_genotypeKeys.mpr hg, ?_⟩
    simp [hv]
  · intro b hb
    simp only [histBins, List.mem_map] at hb
    obtain ⟨i, _, hbi⟩ := hb
    rw [← hbi]
    rfl

/-- C8 witness: the RefCall-only input has its genotype key "[0, 0]"
emitted with an all-zero histogram. -/
theorem empty_vaf_group_emitted_applied :
    ("[0, 0]", histBins [] 10) ∈ vaf_histograms_by_genotype [statRef] 10 ∧
    (histBins [] 10).length = 10 ∧
    ∀ b ∈ histBins [] 10, b.count = 0 :=
  empty_vaf_group_emitted [statRef] "[0, 0]" 10 (by simp [statRef]) (by simp [statRef])

/-- Rounding zero to ten decimal places gives zero. -/
theorem roundTo10_zero : roundTo10 0 = 0 := by
  norm_num [roundTo10]

/-- Rounding one to ten decimal places gives one. -/
theorem roundTo10_one : roundTo10 1 = 1 := by
  norm_num [roundTo10]

/-- C10: for every positive bin count, every emitted genotype histogram
has exactly bin_count entries forming contiguous ascending bins: each
entry's bin_end is the next entry's bin_start, the first bin_start is 0
and the last bin_end is 1. -/
theorem histogram_bin_structure (stats : List VariantStats) (n : Nat) (hn : 0 < n)
    (g : String) (hist : List HistBin)
    (hmem : (g, hist) ∈ vaf_histograms_by_genotype stats n) :
    hist.length = n ∧
    (∀ i : Nat, i + 1 < n →
      (hist[i]?).map HistBin.bin_end = (hist[i + 1]?).map HistBin.bin_start) ∧
    (hist[0]?).map HistBin.bin_start = some 0 ∧
    (hist[n - 1]?).map HistBin.bin_end = some 1 := by
  rw [vaf_histograms_by_genotype] at hmem
  obtain ⟨k, hk, heq⟩ := List.mem_map.mp hmem
  obtain ⟨hkg, hhist⟩ := Prod.mk.injEq .. ▸ heq
  subst hhist
  have hnQ : ((n : Rat)) ≠ 0 := by
    exact_mod_cast Nat.pos_iff_ne_zero.mp hn
  refine ⟨by simp [histBins], ?_, ?_, ?_⟩
  · intro i hi
    have hi1 : i < n := by omega
    have hi2 : i + 1 < n := hi
    simp only [histBins, List.getElem?_map, List.getElem?_range, hi1, hi2, if_pos]
    simp [Nat.cast_add, Nat.cast_one]
  · have h0 : 0 < n := hn
    simp only [histBins, List.getElem?_map, List.getElem?_range, h0, if_pos]
    simp [roundTo10_zero]
  · have hlt : n - 1 < n := by omega
    simp only [histBins, List.getElem?_map, List.getElem?_range, hlt, if_pos]
    have hcast : ((n - 1 : Nat) : Rat) + 1 = (n : Rat) := by
      have : (1 : Nat) ≤ n := hn
      push_cast [this]
      ring
    simp only [Option.map_some']
    rw [hcast, div_self hnQ, roundTo10_one]

/-- C10 witness: the histogram for the single RefCall record with 10 bins
has 10 contiguous entries from 0 to 1. -/
theorem histogram_bin_structure_applied :
    (histBins [] 10).length = 10 ∧
    (∀ i : Nat, i + 1 < 10 →
      ((histBins [] 10)[i]?).map HistBin.bin_end =
        ((histBins [] 10)[i + 1]?).map HistBin.bin_start) ∧
    ((histBins [] 10)[0]?).map HistBin.bin_start = some 0 ∧
    ((histBins [] 10)[10 - 1]?).map HistBin.bin_end = some 1 :=
  histogram_bin_structure [statRef] 10 (by norm_num) "[0, 0]" (histBins [] 10)
    (by
      rw [vaf_histograms_by_genotype]
      refine List.mem_map.mpr ⟨"[0, 0]", by simp [genotypeKeys, sortStrings, insertStr, uniqueSorted, statRef], ?_⟩
      simp [statRef])

/-- Bin membership, unfolded to its arithmetic meaning. -/
theorem inBinB_iff {v : Rat} {i n : Nat} :
    inBinB v i n = true ↔
      ((i : Rat) / n ≤ v ∧
        (if i + 1 = n then v ≤ 1 else v < ((i : Rat) + 1) / n)) := by
  unfold inBinB
  split <;> simp

/-- A range counts exactly one index satisfying a predicate that holds at
`i0 < n` and nowhere else below `n`. -/
theorem countP_range_eq_one {p : Nat → Bool} (n i0 : Nat) (h0 : i0 < n)
    (hp : p i0 = true) (huniq : ∀ j, j < n → p j = true → j = i0) :
    (List.range n).countP p = 1 := by
  induction n with
  | zero => omega
  | succ m ih =>
    rw [List.range_succ, List.countP_append]
    by_cases him : i0 = m
    · have hzero : (List.range m).countP p = 0 := by
        rw [List.countP_eq_zero]
        intro a ha hpa
        rw [List.mem_range] at ha
        have := huniq a (by omega) hpa
        omega
      subst him
      simp [hzero, hp]
    · have h0m : i0 < m := by omega
      have hpm : ¬ p m = true := by
        intro hf
        have := huniq m (by omega) hf
        omega
      rw [ih h0m (fun j hj hpj => huniq j (by omega) hpj)]
      simp [hpm]

/-- Partition property of the fixed-range bins: a value inside [0, 1]
falls into exactly one of the n bins, a value outside into none. -/
theorem countP_range_inBinB (n : Nat) (hn : 0 < n) (v : Rat) :
    (List.range n).countP (fun i => inBinB v i n) =
      if 0 ≤ v ∧ v ≤ 1 then 1 else 0 := by
  have hnQ : (0 : Rat) < (n : Rat) := by exact_mod_cast hn
  by_cases hv : 0 ≤ v ∧ v ≤ 1
  · obtain ⟨hv0, hv1⟩ := hv
    rw [if_pos ⟨hv0, hv1⟩]
    have hw0 : (0 : Rat) ≤ v * n := mul_nonneg hv0 (le_of_lt hnQ)
    have hwn : v * (n : Rat) ≤ (n : Rat) := by
      calc v * (n : Rat) ≤ 1 * n := mul_le_mul_of_nonneg_right hv1 (le_of_lt hnQ)
      _ = (n : Rat) := one_mul _
    have hfl0 : 0 ≤ ⌊v * (n : Rat)⌋ := Int.floor_nonneg.mpr hw0
    have htv : (((⌊v * (n : Rat)⌋).toNat : Int)) = ⌊v * (n : Rat)⌋ :=
      Int.toNat_of_nonneg hfl0
    set t : Nat := (⌊v * (n : Rat)⌋).toNat with ht
    have htQ : ((t : Rat)) ≤ v * n := by
      have hfle := Int.floor_le (v * (n : Rat))
      have : ((t : Int) : Rat) ≤ v * n := by rw [htv]; exact_mod_cast hfle
      exact_mod_cast this
    have hlt : v * (n : Rat) < (t : Rat) + 1 := by
      have hflt := Int.lt_floor_add_one (v * (n : Rat))
      have : v * (n : Rat) < ((t : Int) : Rat) + 1 := by
        rw [htv]; exact_mod_cast hflt
      exact_mod_cast this
    apply countP_range_eq_one n (min t (n - 1)) (by omega)
    · show inBinB v (min t (n - 1)) n = true
      rw [inBinB_iff]
      constructor
      · rw [div_le_iff₀ hnQ]
        have hminle : ((min t (n - 1) : Nat) : Rat) ≤ (t : Rat) := by
          exact_mod_cast Nat.min_le_left t (n - 1)
        linarith
      · split
        · exact hv1
        · rename_i hne
          have htn : t < n - 1 := by
            rcases Nat.lt_or_ge t (n - 1) with h | h
            · exact h
            · exfalso
              apply hne
              omega
          have hmin : min t (n - 1) = t := by omega
          rw [hmin, lt_div_iff₀ hnQ]
          exact hlt
    · intro j hj hpj
      have hpj' : inBinB v j n = true := hpj
      rw [inBinB_iff] at hpj'
      obtain ⟨hjl, hju⟩ := hpj'
      rw [div_le_iff₀ hnQ] at hjl
      have hjt : j ≤ t := by
        have hfloor : (j : Int) ≤ ⌊v * (n : Rat)⌋ := Int.le_floor.mpr (by exact_mod_cast hjl)
        omega
      revert hju
      split
      · intro _
        rename_i hjn
        omega
      · intro hju
        rename_i hjn
        rw [lt_div_iff₀ hnQ] at hju
        have hfu : ⌊v * (n : Rat)⌋ < (j : Int) + 1 := by
          rw [Int.floor_lt]
          push_cast
          exact hju
        omega
  · rw [if_neg hv, List.countP_eq_zero]
    intro i hi hp
    rw [List.mem_range] at hi
    have hp' : inBinB v i n = true := hp
    rw [inBinB_iff] at hp'
    obtain ⟨hl, hu⟩ := hp'
    rcases le_or_lt 0 v with h0 | hneg
    · have h1 : 1 < v := by
        rcases not_and_or.mp hv with h | h
        · exact absurd h0 h
        · exact not_le.mp h
      revert hu
      split
      · intro hu
        linarith
      · intro hu
        rename_i hin
        have hle1 : ((i : Rat) + 1) / n ≤ 1 := by
          rw [div_le_one hnQ]
          have : i + 1 ≤ n := hi
          exact_mod_cast this
        linarith
    · have hnn : (0 : Rat) ≤ (i : Rat) / n := div_nonneg (by positivity) (le_of_lt hnQ)
      linarith

/-- Sums of pointwise sums of naturals split. -/
theorem sum_map_split {α : Type} (l : List α) (f g : α → Nat) :
    (l.map (fun a => f a + g a)).sum = (l.map f).sum + (l.map g).sum := by
  induction l with
  | nil => simp
  | cons a t ih =>
    simp only [List.map_cons, List.sum_cons, ih]
    omega

/-- A sum of 0/1 indicators is a countP. -/
theorem sum_map_ite_count {α : Type} (l : List α) (p : α → Bool) :
    (l.map (fun a => if p a then 1 else 0)).sum = l.countP p := by
  induction l with
  | nil => simp
  | cons a t ih =>
    simp only [List.map_cons, List.sum_cons, List.countP_cons, ih]
    by_cases h : p a = true <;> simp [h]
    omega

/-- The total count over all bins of a fixed-range histogram is the number
of values lying inside [0, 1]; values outside the range are dropped by
`np.histogram`. -/
theorem sum_histBins_counts (vafs : List Rat) (n : Nat) (hn : 0 < n) :
    ((histBins vafs n).map HistBin.count).sum =
      vafs.countP (fun v => decide (0 ≤ v) && decide (v ≤ 1)) := by
  induction vafs with
  | nil =>
    simp only [histBins, List.map_map, List.countP_nil]
    apply List.sum_eq_zero
    intro x hx
    simp only [List.mem_map] at hx
    obtain ⟨i, _, hxi⟩ := hx
    rw [← hxi]
    rfl
  | cons v rest ih =>
    have expand : (histBins (v :: rest) n).map HistBin.count =
        (List.range n).map (fun i =>
          rest.countP (fun w => inBinB w i n) + (if inBinB v i n then 1 else 0)) := by
      simp only [histBins, List.map_map]
      apply List.map_congr_left
      intro i _
      simp [List.countP_cons]
    have expand2 : (histBins rest n).map HistBin.count =
        (List.range n).map (fun i => rest.countP (fun w => inBinB w i n)) := by
      simp only [histBins, List.map_map]
      rfl
    rw [expand, sum_map_split, sum_map_ite_count, countP_range_inBinB n hn v,
      ← expand2, ih, List.countP_cons]
    by_cases h : 0 ≤ v ∧ v ≤ 1
    · simp [h, h.1, h.2]
    · rw [if_neg h]
      rcases not_and_or.mp h with h1 | h1 <;> simp [h1]


/-- C7 (amended): for every input to the histogram operation with 10 bins,
each emitted genotype histogram has the fixed bin boundaries
0.0, 0.1, ..., 1.0 (after rounding to 10 decimals), and the sum of its
counts equals the number of records in the group whose vaf is present and
lies within the range [0, 1].  (Present vaf values outside [0, 1] are
dropped by `np.histogram`.) -/
theorem vaf_histogram_fixed_bins_and_total (stats : List VariantStats) (g : String)
    (hist : List HistBin)
    (hmem : (g, hist) ∈ vaf_histograms_by_genotype stats 10) :
    hist.map HistBin.bin_start = [0, 0.1, 0.2, 0.3, 0.4, 0.5, 0.6, 0.7, 0.8, 0.9] ∧
    hist.map HistBin.bin_end = [0.1, 0.2, 0.3, 0.4, 0.5, 0.6, 0.7, 0.8, 0.9, 1] ∧
    (hist.map HistBin.count).sum =
      ((stats.filter (fun s => s.genotype == g)).filterMap (fun s => s.vaf)).countP
        (fun v => decide (0 ≤ v) && decide (v ≤ 1)) := by
  rw [vaf_histograms_by_genotype] at hmem
  obtain ⟨k, hk, heq⟩ := List.mem_map.mp hmem
  obtain ⟨hkg, hhist⟩ := Prod.mk.injEq .. ▸ heq
  subst hkg
  subst hhist
  refine ⟨?_, ?_, ?_⟩
  · simp only [histBins, List.map_map]
    norm_num [roundTo10, List.range_succ, Function.comp_def]
  · simp only [histBins, List.map_map]
    norm_num [roundTo10, List.range_succ, Function.comp_def]
  · exact sum_histBins_counts _ 10 (by norm_num)

/-- C7 counterexample: a record with a present vaf of 2 yields a genotype
histogram whose counts sum to 0, while the group has 1 present vaf — the
claimed equality of the two quantities fails. -/
theorem vaf_histogram_total_cex :
    ("[1, 2]", histBins [(2 : Rat)] 10) ∈ vaf_histograms_by_genotype [statBad] 10 ∧
    ((histBins [(2 : Rat)] 10).map HistBin.count).sum = 0 ∧
    (([statBad].filter (fun s => s.genotype == "[1, 2]")).filterMap
      (fun s => s.vaf)).length = 1 ∧
    ((histBins [(2 : Rat)] 10).map HistBin.count).sum ≠
      (([statBad].filter (fun s => s.genotype == "[1, 2]")).filterMap
        (fun s => s.vaf)).length := by
  have h1 : ("[1, 2]", histBins [(2 : Rat)] 10) ∈ vaf_histograms_by_genotype [statBad] 10 := by
    rw [vaf_histograms_by_genotype]
    refine List.mem_map.mpr ⟨"[1, 2]",
      by simp [genotypeKeys, sortStrings, insertStr, uniqueSorted, statBad], ?_⟩
    simp [statBad]
  have h2 : ((histBins [(2 : Rat)] 10).map HistBin.count).sum = 0 := by
    norm_num [histBins, inBinB, List.range_succ]
  have h3 : (([statBad].filter (fun s => s.genotype == "[1, 2]")).filterMap
      (fun s => s.vaf)).length = 1 := by
    simp [statBad]
  exact ⟨h1, h2, h3, by rw [h2, h3]; omega⟩

/-- C7 witness: for the single-SNP input (vaf 0.5) the emitted histogram
has the fixed boundaries and its counts sum to the one in-range vaf. -/
theorem vaf_histogram_fixed_bins_and_total_applied :
    (histBins [(1 : Rat)/2] 10).map HistBin.bin_start =
      [0, 0.1, 0.2, 0.3, 0.4, 0.5, 0.6, 0.7, 0.8, 0.9] ∧
    (histBins [(1 : Rat)/2] 10).map HistBin.bin_end =
      [0.1, 0.2, 0.3, 0.4, 0.5, 0.6, 0.7, 0.8, 0.9, 1] ∧
    ((histBins [(1 : Rat)/2] 10).map HistBin.count).sum =
      (([statSnp].filter (fun s => s.genotype == "[0, 1]")).filterMap
        (fun s => s.vaf)).countP (fun v => decide (0 ≤ v) && decide (v ≤ 1)) :=
  vaf_histogram_fixed_bins_and_total [statSnp] "[0, 1]" (histBins [(1 : Rat)/2] 10)
    (by
      rw [vaf_histograms_by_genotype]
      refine List.mem_map.mpr ⟨"[0, 1]",
        by simp [genotypeKeys, sortStrings, insertStr, uniqueSorted, statSnp], ?_⟩
      simp [statSnp])

end VcfStats
